import Mathlib

/-!
Verification development for the type-definition core of a GraphQL library
(`graphql/core/type/definition.py`) and its asyncio execution middleware
(`graphql/core/execution/middlewares/asyncio.py`).

The Python classes are shallowly embedded: the tag/name facet of the type
class hierarchy becomes the inductive `GQLType`; the mutable-object parts
(field maps, argument lists, enum values) become explicit heaps of records
addressed by natural numbers, with Python attribute mutation modelled as
functional heap update; Python `assert` failures become `Except.error`
carrying the formatted message string.
-/

namespace GraphQL

/--
Tag/name facet of the GraphQL type class hierarchy
(definition.py: classes GraphQLScalarType, GraphQLObjectType,
GraphQLInterfaceType, GraphQLUnionType, GraphQLEnumType,
GraphQLInputObjectType, GraphQLList, GraphQLNonNull).
Each named variant carries its `name` and `description` attributes; the
two modifiers carry their `of_type`.  Further per-class attributes
(fields, resolvers, enum values) are modelled separately below where a
claim needs them.
-/
inductive GQLType where
  | scalar (name : String) (description : Option String)
  | object (name : String) (description : Option String)
  | interface (name : String) (description : Option String)
  | union (name : String) (description : Option String)
  | enum (name : String) (description : Option String)
  | inputObject (name : String) (description : Option String)
  | list (of_type : GQLType)
  | nonNull (of_type : GQLType)
  deriving DecidableEq, Repr

/-- Python class tags, for modelling `self.__class__ is other.__class__`
and the `isinstance` checks of the classification predicates. -/
inductive TypeClass where
  | scalar
  | object
  | interface
  | union
  | enum
  | inputObject
  | list
  | nonNull
  deriving DecidableEq, Repr

def GQLType.classOf : GQLType → TypeClass
  | .scalar _ _      => .scalar
  | .object _ _      => .object
  | .interface _ _   => .interface
  | .union _ _       => .union
  | .enum _ _        => .enum
  | .inputObject _ _ => .inputObject
  | .list _          => .list
  | .nonNull _       => .nonNull

/-- Name attribute of a named type (the `self.name` read by
`GraphQLType.is_same_type`); the modifiers have no `name` attribute, the
`""` default is never reached under the `__class__` guard. -/
def GQLType.name : GQLType → String
  | .scalar n _      => n
  | .object n _      => n
  | .interface n _   => n
  | .union n _       => n
  | .enum n _        => n
  | .inputObject n _ => n
  | .list _          => ""
  | .nonNull _       => ""

/--
Structural equality test (definition.py lines 61-62, 545-546, 574-575).
`GraphQLList.is_same_type` and `GraphQLNonNull.is_same_type` override the
base method with an `isinstance` check plus recursion on `of_type`; the
base `GraphQLType.is_same_type` used by all named classes is
`self.__class__ is other.__class__ and self.name == other.name`.
-/
def GQLType.is_same_type : GQLType → GQLType → Bool
  | .list a, b => match b with
    | .list b' => a.is_same_type b'
    | _ => false
  | .nonNull a, b => match b with
    | .nonNull b' => a.is_same_type b'
    | _ => false
  | a, b => a.classOf == b.classOf && a.name == b.name

/-- Modifier-stripping loop of `get_named_type` (definition.py lines 44-48). -/
def get_named_type : GQLType → GQLType
  | .list t => get_named_type t
  | .nonNull t => get_named_type t
  | t => t

/-- Input-type classification (definition.py lines 7-13):
`isinstance(get_named_type(type), (GraphQLScalarType, GraphQLEnumType,
GraphQLInputObjectType))`. -/
def is_input_type (t : GQLType) : Bool :=
  match get_named_type t with
  | .scalar _ _ | .enum _ _ | .inputObject _ _ => true
  | _ => false

/-- Output-type classification (definition.py lines 16-24):
`isinstance(get_named_type(type), (GraphQLScalarType, GraphQLObjectType,
GraphQLInterfaceType, GraphQLUnionType, GraphQLEnumType))`. -/
def is_output_type (t : GQLType) : Bool :=
  match get_named_type t with
  | .scalar _ _ | .object _ _ | .interface _ _ | .union _ _ | .enum _ _ => true
  | _ => false

/-- Builder for a named type from its class tag; used to quantify over
the six named variants at once.  Returns `scalar` on the two modifier
tags, which callers exclude. -/
def mkNamed (c : TypeClass) (n : String) (d : Option String) : GQLType :=
  match c with
  | .scalar      => .scalar n d
  | .object      => .object n d
  | .interface   => .interface n d
  | .union       => .union n d
  | .enum        => .enum n d
  | .inputObject => .inputObject n d
  | .list        => .scalar n d
  | .nonNull     => .scalar n d

/-- Tags of the six named (non-modifier) classes. -/
def TypeClass.isNamed : TypeClass → Bool
  | .list => false
  | .nonNull => false
  | _ => true

/-- Character class `[_a-zA-Z]` of NAME_PATTERN (ASCII letters only, as in
the Python regex). -/
def isNameStart (c : Char) : Bool := c = '_' || c.isAlpha

/-- Character class `[_a-zA-Z0-9]` of NAME_PATTERN. -/
def isNameCont (c : Char) : Bool := isNameStart c || c.isDigit

/-- NAME_PATTERN (definition.py line 65): the anchored regex
`^[_a-zA-Z][_a-zA-Z0-9]*$` as a predicate on the string's characters. -/
def name_pattern_match (name : String) : Bool :=
  match name.data with
  | [] => false
  | c :: cs => isNameStart c && cs.all isNameCont

/-- assert_valid_name (definition.py lines 68-70); the failed `assert`
becomes an `Except.error` carrying the formatted message. -/
def assert_valid_name (name : String) : Except String Unit :=
  if name_pattern_match name then .ok ()
  else .error ("Names must match /^[_a-zA-Z][_a-zA-Z0-9]*$/ but \"" ++ name
    ++ "\" does not.")

/-- Attribute record of a constructed GraphQLScalarType (definition.py
lines 89-104).  `V` is the type of runtime values; each coercion
capability is an optional function (`none` models Python `None`; a
supplied capability is a function value and hence callable). -/
structure GraphQLScalarType (V : Type) where
  name : String
  description : Option String
  _serialize : Option (V → V)
  _parse_value : Option (V → V)
  _parse_literal : Option (V → V)

/-- Constructor body of GraphQLScalarType (definition.py lines 89-104):
`assert name`, `assert_valid_name(name)`, `assert callable(serialize)`,
and, when `parse_value or parse_literal` is supplied, `assert
callable(parse_value) and callable(parse_literal)`. -/
def GraphQLScalarType.init (V : Type) (name : String) (description : Option String)
    (serialize parse_value parse_literal : Option (V → V)) :
    Except String (GraphQLScalarType V) :=
  if name = "" then .error "Type must be named."
  else match assert_valid_name name with
  | .error e => .error e
  | .ok _ =>
    if serialize.isSome = false then
      .error (name ++ " must provide \"serialize\" function. If this custom Scalar is also used as an input type, ensure \"parse_value\" and \"parse_literal\" functions are also provided.")
    else if (parse_value.isSome || parse_literal.isSome)
        && !(parse_value.isSome && parse_literal.isSome) then
      .error (name ++ " must provide both \"parse_value\" and \"parse_literal\" functions.")
    else
      .ok { name := name, description := description, _serialize := serialize,
            _parse_value := parse_value, _parse_literal := parse_literal }

/-- Resolution facet of GraphQLObjectType (definition.py lines 149-161):
the `name` and the optional `is_type_of` membership test.  The field-map
and interface attributes are modelled separately (`FieldsCell`, heap)
where the lazy-resolution claims need them. -/
structure GraphQLObjectType (V : Type) where
  name : String
  description : Option String
  is_type_of : Option (V → Bool)

/-- get_type_of (definition.py lines 304-308): scan the possible types in
order and return the first whose `is_type_of` is callable and accepts the
value; fall off the end (Python implicit `None`) otherwise. -/
def get_type_of {V : Type} (value : V) (possible_types : List (GraphQLObjectType V)) :
    Option (GraphQLObjectType V) :=
  match possible_types with
  | [] => none
  | t :: rest =>
    match t.is_type_of with
    | some f => if f value then some t else get_type_of value rest
    | none => get_type_of value rest

/-- Resolution facet of GraphQLInterfaceType (definition.py lines
269-301): `name`, the optional `type_resolver`, and the `_impls` list of
implementors accumulated by `add_impl_to_interfaces`. -/
structure GraphQLInterfaceType (V : Type) where
  name : String
  description : Option String
  type_resolver : Option (V → Option (GraphQLObjectType V))
  _impls : List (GraphQLObjectType V)

/-- get_possible_types of an interface (definition.py lines 288-289). -/
def GraphQLInterfaceType.get_possible_types {V : Type}
    (self : GraphQLInterfaceType V) : List (GraphQLObjectType V) :=
  self._impls

/-- resolve_type of an interface (definition.py lines 298-301): an
explicit resolver wins; otherwise fall back to `get_type_of`. -/
def GraphQLInterfaceType.resolve_type {V : Type} (self : GraphQLInterfaceType V)
    (value : V) : Option (GraphQLObjectType V) :=
  match self.type_resolver with
  | some r => r value
  | none => get_type_of value self.get_possible_types

/-- Resolution facet of a constructed GraphQLUnionType (definition.py
lines 329-353). -/
structure GraphQLUnionType (V : Type) where
  name : String
  description : Option String
  _resolve_type : Option (V → Option (GraphQLObjectType V))
  _types : List (GraphQLObjectType V)

/-- get_possible_types of a union (definition.py lines 352-353). -/
def GraphQLUnionType.get_possible_types {V : Type}
    (self : GraphQLUnionType V) : List (GraphQLObjectType V) :=
  self._types

/-- resolve_type of a union (definition.py lines 362-365). -/
def GraphQLUnionType.resolve_type {V : Type} (self : GraphQLUnionType V)
    (value : V) : Option (GraphQLObjectType V) :=
  match self._resolve_type with
  | some r => r value
  | none => get_type_of value self.get_possible_types

/-- Member loop of the GraphQLUnionType constructor (definition.py lines
339-348): each member must be an Object type (enforced here by typing);
when the union supplies no resolver, each member must supply a callable
`is_type_of`, else the constructor fails citing the member. -/
def union_types_check {V : Type} (selfName : String)
    (resolve_type : Option (V → Option (GraphQLObjectType V))) :
    List (GraphQLObjectType V) → Except String Unit
  | [] => .ok ()
  | t :: rest =>
    if resolve_type.isSome then union_types_check selfName resolve_type rest
    else match t.is_type_of with
      | some _ => union_types_check selfName resolve_type rest
      | none => .error ("Union Type " ++ selfName ++ " does not provide a \"resolve_type\" function and possible Type " ++ t.name ++ " does not provide a \"is_type_of\" function. There is no way to resolve this possible type during execution.")

/-- Constructor body of GraphQLUnionType (definition.py lines 329-350):
`assert name`, `assert_valid_name`, the (vacuous under typing)
callability check on `resolve_type`, `assert types`, and the member
loop. -/
def GraphQLUnionType.init (V : Type) (name : String) (types : List (GraphQLObjectType V))
    (resolve_type : Option (V → Option (GraphQLObjectType V)))
    (description : Option String) : Except String (GraphQLUnionType V) :=
  if name = "" then .error "Type must be named."
  else match assert_valid_name name with
  | .error e => .error e
  | .ok _ =>
    if types.isEmpty then .error ("Must provide types for Union " ++ name ++ ".")
    else match union_types_check name resolve_type types with
    | .error e => .error e
    | .ok _ =>
      .ok { name := name, description := description,
            _resolve_type := resolve_type, _types := types }

/-- Interface loop of define_interfaces (definition.py lines 181-191):
each provided interface must be a GraphQLInterfaceType (enforced here by
typing); when the interface has no callable `type_resolver`, the
implementing object must supply a callable `is_type_of`, else resolution
of the interface list fails citing the implementing type. -/
def define_interfaces_check {V : Type} (type_ : GraphQLObjectType V) :
    List (GraphQLInterfaceType V) → Except String Unit
  | [] => .ok ()
  | iface :: rest =>
    if iface.type_resolver.isSome then define_interfaces_check type_ rest
    else match type_.is_type_of with
      | some _ => define_interfaces_check type_ rest
      | none => .error ("Interface Type " ++ iface.name ++ " does not provide a \"resolve_type\" function and implementing Type " ++ type_.name ++ " does not provide a \"is_type_of\" function. There is no way to resolve this implementing type during execution.")

/-- Shapes the `interfaces` argument of GraphQLObjectType can take once a
supplied zero-argument producer has been invoked: Python `None`, an
actual list/tuple, or a value failing the list/tuple `isinstance` check. -/
inductive InterfacesVal (V : Type) where
  | nil
  | listed (l : List (GraphQLInterfaceType V))
  | notListLike

/-- The `interfaces` argument itself: a direct value or a zero-argument
producer (Python `callable(interfaces)`). -/
inductive InterfacesArg (V : Type) where
  | value (v : InterfacesVal V)
  | producer (f : Unit → InterfacesVal V)

/-- define_interfaces (definition.py lines 174-191): invoke a producer,
treat `None` as the empty list, reject non-list shapes, then run the
per-interface resolvability check. -/
def define_interfaces {V : Type} (type_ : GraphQLObjectType V)
    (interfaces : InterfacesArg V) : Except String (List (GraphQLInterfaceType V)) :=
  let ifaces := match interfaces with
    | .value v => v
    | .producer f => f ()
  match ifaces with
  | .nil => .ok []
  | .notListLike => .error (type_.name ++ " interfaces must be an list/tuple or a function which returns an list/tuple.")
  | .listed l =>
    match define_interfaces_check type_ l with
    | .error e => .error e
    | .ok _ => .ok l

/-- Loop condition of get_type_of (definition.py line 307):
`callable(type.is_type_of) and type.is_type_of(value)`. -/
def is_type_of_accepts {V : Type} (t : GraphQLObjectType V) (value : V) : Bool :=
  match t.is_type_of with
  | some f => f value
  | none => false

/-- String rendering of a type: `__str__` (definition.py lines 58-59,
119-120, 542-543, 571-572): a named type renders as its name, a List as
`[inner]`, a NonNull as `inner!`. -/
def GQLType.str : GQLType → String
  | .list t => "[" ++ t.str ++ "]"
  | .nonNull t => t.str ++ "!"
  | t => t.name

/-- Addresses of objects in the modelled Python heaps. -/
abbrev Addr := Nat

/-- Shapes the `args` attribute of a GraphQLField can take: Python `None`,
a mapping from argument name to the address of a GraphQLArgument object,
or the list of resolved argument addresses that define_field_map
installs on the copy (a non-mapping value, which an already-resolved
non-empty list is, fails the Mapping `isinstance` check). -/
inductive ArgsVal where
  | nil
  | map (entries : List (String × Addr))
  | resolved (addrs : List Addr)
  deriving DecidableEq, Repr

/-- Source addresses an `args` mapping refers to. -/
def ArgsVal.srcAddrs : ArgsVal → List Addr
  | .map es => es.map Prod.snd
  | _ => []

/-- GraphQLField attribute record (definition.py lines 237-244).  `name`
is absent (`none`) until define_field_map assigns it on a copy;
`resolver` is an opaque handle standing for the optional resolver
function. -/
structure GraphQLField where
  name : Option String
  type : GQLType
  args : ArgsVal
  resolver : Option Nat
  deprecation_reason : Option String
  description : Option String
  deriving DecidableEq, Repr

/-- GraphQLArgument attribute record (definition.py lines 247-251);
`default_value` is an opaque handle standing for an arbitrary value. -/
structure GraphQLArgument where
  name : Option String
  type : GQLType
  default_value : Option Nat
  description : Option String
  deriving DecidableEq, Repr

/-- GraphQLInputObjectField attribute record (definition.py lines
512-516). -/
structure GraphQLInputObjectField where
  name : Option String
  type : GQLType
  default_value : Option Nat
  description : Option String
  deriving DecidableEq, Repr

/-- The mutable store of Field, Argument and InputObjectField objects.
An address is an index into the respective list; `copy.copy` is modelled
as appending a fresh record, leaving the source record untouched. -/
structure Heap where
  fields : List GraphQLField
  args : List GraphQLArgument
  input_fields : List GraphQLInputObjectField
  deriving DecidableEq, Repr

/-- Attribute read on a field object; the default record is never
consulted at valid addresses. -/
def Heap.fieldAt (h : Heap) (a : Addr) : GraphQLField :=
  h.fields.getD a ⟨none, .scalar "" none, .nil, none, none, none⟩

/-- Attribute read on an argument object. -/
def Heap.argAt (h : Heap) (a : Addr) : GraphQLArgument :=
  h.args.getD a ⟨none, .scalar "" none, none, none⟩

/-- Attribute read on an input-object-field object. -/
def Heap.inputFieldAt (h : Heap) (a : Addr) : GraphQLInputObjectField :=
  h.input_fields.getD a ⟨none, .scalar "" none, none, none⟩

/-- Inner argument loop of define_field_map (definition.py lines
218-227): for each mapping entry, validate the argument name, check the
input-type requirement, then `copy.copy` the argument, assign the map
key as the copy's `name`, and collect the copies in order. -/
def resolve_field_args (h : Heap) (type_name field_name : String) :
    List (String × Addr) → Except String (Heap × List Addr)
  | [] => .ok (h, [])
  | (arg_name, a) :: rest =>
    match assert_valid_name arg_name with
    | .error e => .error e
    | .ok _ =>
      if is_input_type (h.argAt a).type = false then
        .error (type_name ++ "." ++ field_name ++ "(" ++ arg_name ++ ":) argument type must be Input Type but got: " ++ (h.argAt a).type.str ++ ".")
      else
        match resolve_field_args
            { h with args := h.args ++ [{ h.argAt a with name := some arg_name }] }
            type_name field_name rest with
        | .error e => .error e
        | .ok (h'', addrs) => .ok (h'', h.args.length :: addrs)

/-- Argument-handling block of define_field_map (definition.py lines
213-227): a falsy `args` (None or an empty collection) becomes the empty
list; otherwise `args` must be a mapping (an already-resolved non-empty
list fails the Mapping `isinstance` check) and its entries are resolved
through the copying argument loop. -/
def normalize_field_args (h : Heap) (type_name field_name : String) :
    ArgsVal → Except String (Heap × ArgsVal)
  | .nil => .ok (h, .resolved [])
  | .map [] => .ok (h, .resolved [])
  | .resolved [] => .ok (h, .resolved [])
  | .map entries =>
    match resolve_field_args h type_name field_name entries with
    | .error e => .error e
    | .ok (h', addrs) => .ok (h', .resolved addrs)
  | .resolved _ =>
    .error (type_name ++ "." ++ field_name ++ " args must be an mapping (dict) with argument names as keys.")

/-- Outer field loop of define_field_map (definition.py lines 206-229):
for each mapping entry, validate the field name, `copy.copy` the field,
assign the map key as the copy's `name`, check the output-type
requirement, normalise the copy's `args`, and record the copy in the
field map.  (The source allocates the copy before the output-type check;
since a failed check aborts the whole build, allocating only on the
success path is observationally the same.) -/
def define_field_map_loop (h : Heap) (type_name : String) :
    List (String × Addr) → Except String (Heap × List (String × Addr))
  | [] => .ok (h, [])
  | (field_name, fa) :: rest =>
    match assert_valid_name field_name with
    | .error e => .error e
    | .ok _ =>
      if is_output_type (h.fieldAt fa).type = false then
        .error (type_name ++ "." ++ field_name ++ " field type must be Output Type but got: " ++ (h.fieldAt fa).type.str)
      else
        match normalize_field_args h type_name field_name (h.fieldAt fa).args with
        | .error e => .error e
        | .ok (h₁, newArgs) =>
          match define_field_map_loop
              { h₁ with fields := h₁.fields ++
                [{ h.fieldAt fa with name := some field_name, args := newArgs }] }
              type_name rest with
          | .error e => .error e
          | .ok (h₃, fm) => .ok (h₃, (field_name, h₁.fields.length) :: fm)

/-- Shapes the `fields` argument can take once a supplied producer has
been invoked: Python `None`, an actual mapping (name to field-object
address), or a value failing the Mapping `isinstance` check. -/
inductive FieldsVal where
  | nil
  | mapping (entries : List (String × Addr))
  | notMapping

/-- The `fields` constructor argument: a direct value or a zero-argument
producer (Python `callable(fields)`). -/
inductive FieldsArg where
  | value (v : FieldsVal)
  | producer (f : Unit → FieldsVal)

/-- define_field_map (definition.py lines 194-229): invoke a producer if
one was supplied, require a non-empty mapping, then run the field loop.
The returned Nat counts producer invocations (0 or 1) made by this
call, for the memoization claim. -/
def define_field_map (h : Heap) (type_name : String) (fields : FieldsArg) :
    Except String (Heap × List (String × Addr)) × Nat :=
  let p : FieldsVal × Nat := match fields with
    | .value v => (v, 0)
    | .producer f => (f (), 1)
  match p.1 with
  | .mapping [] => (.error (type_name ++ " fields must be an mapping (dict) with field names as keys or a function which returns such an mapping."), p.2)
  | .mapping entries => (define_field_map_loop h type_name entries, p.2)
  | _ => (.error (type_name ++ " fields must be an mapping (dict) with field names as keys or a function which returns such an mapping."), p.2)

/-- The `_fields` / `_field_map` attribute pair shared by the lazily
resolved classes: GraphQLObjectType (definition.py lines 157-166),
GraphQLInterfaceType (lines 277-286) and GraphQLInputObjectType (lines
481-487). -/
structure FieldsCell where
  _fields : FieldsArg
  _field_map : Option (List (String × Addr))

/-- get_fields of GraphQLObjectType / GraphQLInterfaceType (definition.py
lines 163-166 and 283-286): return the cached map if `_field_map` is
set, otherwise run define_field_map once and cache its result (a failed
resolution leaves the cache empty).  Returns the field map or error, the
updated heap and cell, and the number of producer invocations this call
made. -/
def get_fields (h : Heap) (type_name : String) (self : FieldsCell) :
    Except String (List (String × Addr)) × Heap × FieldsCell × Nat :=
  match self._field_map with
  | some fm => (.ok fm, h, self, 0)
  | none =>
    match define_field_map h type_name self._fields with
    | (.ok (h', fm), n) => (.ok fm, h', { self with _field_map := some fm }, n)
    | (.error e, n) => (.error e, h, self, n)

/-- Field loop of GraphQLInputObjectType._define_field_map (definition.py
lines 501-509): validate the name, `copy.copy` the field, assign the map
key as the copy's `name`, and check the input-type requirement.  (In the
source the message's first placeholder renders the Python builtin
`type`, not the input object: the method has no local named `type`.) -/
def input_object_define_field_map_loop (h : Heap) :
    List (String × Addr) → Except String (Heap × List (String × Addr))
  | [] => .ok (h, [])
  | (field_name, fa) :: rest =>
    match assert_valid_name field_name with
    | .error e => .error e
    | .ok _ =>
      let field := h.inputFieldAt fa
      if is_input_type field.type = false then
        .error ("<class 'type'>." ++ field_name ++ " field type must be Input Type but got: " ++ field.type.str)
      else
        let addr := h.input_fields.length
        let h₁ : Heap := { h with input_fields := h.input_fields ++
          [{ field with name := some field_name }] }
        match input_object_define_field_map_loop h₁ rest with
        | .error e => .error e
        | .ok (h₂, fm) => .ok (h₂, (field_name, addr) :: fm)

/-- GraphQLInputObjectType._define_field_map (definition.py lines
489-509): producer invocation, non-empty-mapping requirement, then the
input-field loop; instrumented with the producer invocation count. -/
def input_object_define_field_map (h : Heap) (type_name : String)
    (fields : FieldsArg) :
    Except String (Heap × List (String × Addr)) × Nat :=
  let p : FieldsVal × Nat := match fields with
    | .value v => (v, 0)
    | .producer f => (f (), 1)
  match p.1 with
  | .mapping [] => (.error (type_name ++ " fields must be an mapping (dict) with field names as keys or a function which returns such an mapping."), p.2)
  | .mapping entries => (input_object_define_field_map_loop h entries, p.2)
  | _ => (.error (type_name ++ " fields must be an mapping (dict) with field names as keys or a function which returns such an mapping."), p.2)

/-- get_fields of GraphQLInputObjectType (definition.py lines 484-487):
the same memoization wrapper around `_define_field_map`. -/
def input_object_get_fields (h : Heap) (type_name : String) (self : FieldsCell) :
    Except String (List (String × Addr)) × Heap × FieldsCell × Nat :=
  match self._field_map with
  | some fm => (.ok fm, h, self, 0)
  | none =>
    match input_object_define_field_map h type_name self._fields with
    | (.ok (h', fm), n) => (.ok fm, h', { self with _field_map := some fm }, n)
    | (.error e, n) => (.error e, h, self, n)

/-- Repeated calls of get_fields on one instance: the list of results,
the final heap and cell, and the total producer invocation count. -/
def run_get_fields_calls (h : Heap) (type_name : String) (self : FieldsCell) :
    Nat → List (Except String (List (String × Addr))) × Heap × FieldsCell × Nat
  | 0 => ([], h, self, 0)
  | n + 1 =>
    let r := get_fields h type_name self
    let rs := run_get_fields_calls r.2.1 type_name r.2.2.1 n
    (r.1 :: rs.1, rs.2.1, rs.2.2.1, r.2.2.2 + rs.2.2.2)

/-- Repeated calls of the input-object get_fields. -/
def run_input_object_get_fields_calls (h : Heap) (type_name : String)
    (self : FieldsCell) :
    Nat → List (Except String (List (String × Addr))) × Heap × FieldsCell × Nat
  | 0 => ([], h, self, 0)
  | n + 1 =>
    let r := input_object_get_fields h type_name self
    let rs := run_input_object_get_fields_calls r.2.1 type_name r.2.2.1 n
    (r.1 :: rs.1, rs.2.1, rs.2.2.1, r.2.2.2 + rs.2.2.2)

/-- GraphQLEnumValue attribute record (definition.py lines 447-451); `E`
is the type of internal enum values, and `value` is `none` exactly when
the constructor was given no explicit value. -/
structure GraphQLEnumValue (E : Type) where
  name : Option String
  value : Option E
  deprecation_reason : Option String
  description : Option String
  deriving DecidableEq, Repr

/-- The store of GraphQLEnumValue objects; an address is an index. -/
abbrev EnumHeap (E : Type) := List (GraphQLEnumValue E)

/-- In-place name assignment `value.name = value_name` of
define_enum_values (definition.py line 442): the caller's object itself
is updated, no copy is made. -/
def enum_name_upd {E : Type} (h : EnumHeap E) (p : String × Addr) : EnumHeap E :=
  h.set p.2 { h.getD p.2 ⟨none, none, none, none⟩ with name := some p.1 }

/-- Loop of define_enum_values (definition.py lines 437-444): validate
each key, assign it in place as the entry's `name` (`isinstance(value,
GraphQLEnumValue)` holds by typing here), and append the entry itself --
the same object, not a copy -- to the result list. -/
def define_enum_values_loop {E : Type} (h : EnumHeap E) :
    List (String × Addr) → Except String (EnumHeap E × List Addr)
  | [] => .ok (h, [])
  | (value_name, a) :: rest =>
    match assert_valid_name value_name with
    | .error e => .error e
    | .ok _ =>
      match define_enum_values_loop (enum_name_upd h (value_name, a)) rest with
      | .error e => .error e
      | .ok (h', addrs) => .ok (h', a :: addrs)

/-- define_enum_values (definition.py lines 432-444): require a non-empty
mapping (the Mapping `isinstance` check holds by typing), then run the
loop.  Note the loop never touches the `value` attribute: no default is
applied to entries constructed without an explicit internal value. -/
def define_enum_values {E : Type} (h : EnumHeap E) (type_name : String)
    (value_map : List (String × Addr)) : Except String (EnumHeap E × List Addr) :=
  if value_map.isEmpty then
    .error (type_name ++ " values must be an mapping (dict) with value names as keys.")
  else define_enum_values_loop h value_map

/-- Key of the last entry of the value map that refers to address `a`. -/
def last_assigned_key (a : Addr) : List (String × Addr) → Option String
  | [] => none
  | p :: rest =>
    match last_assigned_key a rest with
    | some k => some k
    | none => if p.2 = a then some p.1 else none

/-- Modelled from the spec: the engine-internal Deferred pending-value
abstraction of graphql/core/defer.py, which is not among the sources
here.  Per spec section 4.5, a Deferred moves from Pending to
Settled(Success value) via `callback` or to Settled(Failure error) via
`errback`, the settled states being terminal and reached at most once.
`V` is the success-value type, `E` the error type. -/
inductive DeferredState (V E : Type) where
  | pending
  | called (v : V)
  | erred (e : E)
  deriving DecidableEq, Repr

/-- Modelled from the spec: `callback(value)` settles a pending Deferred
with a success value; the settled states are terminal (settling an
already-settled instance is an internal contract violation). -/
def DeferredState.callback {V E : Type} : DeferredState V E → V → DeferredState V E
  | .pending, v => .called v
  | s, _ => s

/-- Modelled from the spec: `errback(error)` settles a pending Deferred
with a failure; the settled states are terminal. -/
def DeferredState.errback {V E : Type} : DeferredState V E → E → DeferredState V E
  | .pending, e => .erred e
  | s, _ => s

/-- Outcome of a completed host-platform future: `future.exception()`
yields `some` exception, otherwise `future.result()` yields the value.
Exception objects are truthy, so the source's `if exception:` test is
exactly this distinction. -/
abbrev FutureOutcome (V E : Type) := Except E V

/-- process_future_result (asyncio.py lines 6-15): the completion handler
installed on the host future over a captured deferred; on completion it
forwards an exception into `errback` and a normal result into
`callback`. -/
def process_future_result {V E : Type} (deferred : DeferredState V E)
    (future : FutureOutcome V E) : DeferredState V E :=
  match future with
  | .error exception => deferred.errback exception
  | .ok result => deferred.callback result

/-- Classification of a resolver's return value at the bridge (asyncio.py
line 21): a host-platform pending computation (a Future, or a coroutine
that `ensure_future` wraps into one) carrying its eventual outcome, or
any other, already-available value. -/
inductive ResolverResult (V E : Type) where
  | plain (v : V)
  | future (outcome : FutureOutcome V E)

/-- What run_resolve_fn hands back to the executor: the resolver's value
unchanged, or a fresh Deferred (in the state it has on return, i.e.
pending) together with the outcome of the host future whose completion
handler will settle it. -/
inductive RunResolveResult (V E : Type) where
  | value (v : V)
  | deferred (d : DeferredState V E) (outcome : FutureOutcome V E)

/-- AsyncioExecutionMiddleware.run_resolve_fn (asyncio.py lines 19-27):
invoke the resolver; a Future/coroutine result is scheduled and wired via
process_future_result to a fresh pending Deferred, which is returned;
any other result is returned unchanged. -/
def run_resolve_fn {V E : Type} (resolver : Unit → ResolverResult V E) :
    RunResolveResult V E :=
  match resolver () with
  | .plain v => .value v
  | .future outcome => .deferred .pending outcome

/-! ### Theorems -/

/-- The get_type_of scan is List.find? with the acceptance condition. -/
theorem get_type_of_eq_find {V : Type} (value : V)
    (l : List (GraphQLObjectType V)) :
    get_type_of value l = l.find? (fun t => is_type_of_accepts t value) := by
  induction l with
  | nil => rfl
  | cons hd rest ih =>
    unfold get_type_of
    cases h : hd.is_type_of with
    | none => simp [List.find?, is_type_of_accepts, h, ih]
    | some f => cases hf : f value <;>
        simp [List.find?, is_type_of_accepts, h, hf, ih]

/-- The scan returns nothing exactly when no possible type accepts. -/
theorem get_type_of_eq_none_iff {V : Type} (value : V)
    (l : List (GraphQLObjectType V)) :
    get_type_of value l = none ↔ ∀ t ∈ l, is_type_of_accepts t value = false := by
  rw [get_type_of_eq_find]
  simp [List.find?_eq_none]

/-- The scan returns `t` exactly when `t` is the first possible type
accepting the value. -/
theorem get_type_of_eq_some_iff {V : Type} (value : V)
    (l : List (GraphQLObjectType V)) (t : GraphQLObjectType V) :
    get_type_of value l = some t ↔
      ∃ l₁ l₂, l = l₁ ++ t :: l₂ ∧ is_type_of_accepts t value = true ∧
        ∀ u ∈ l₁, is_type_of_accepts u value = false := by
  induction l with
  | nil => simp [get_type_of]
  | cons hd rest ih =>
    constructor
    · intro h
      unfold get_type_of at h
      rcases ha : hd.is_type_of with _ | f
      · rw [ha] at h
        rcases ih.mp h with ⟨l₁, l₂, rfl, hacc, hall⟩
        refine ⟨hd :: l₁, l₂, rfl, hacc, ?_⟩
        intro u hu
        rcases List.mem_cons.mp hu with rfl | hu
        · simp [is_type_of_accepts, ha]
        · exact hall u hu
      · rw [ha] at h
        cases hf : f value with
        | true =>
          simp only [hf, if_true] at h
          obtain rfl : hd = t := by exact Option.some.inj h
          exact ⟨[], rest, rfl, by simp [is_type_of_accepts, ha, hf], by simp⟩
        | false =>
          simp only [hf, Bool.false_eq_true, if_false] at h
          rcases ih.mp h with ⟨l₁, l₂, rfl, hacc, hall⟩
          refine ⟨hd :: l₁, l₂, rfl, hacc, ?_⟩
          intro u hu
          rcases List.mem_cons.mp hu with rfl | hu
          · simp [is_type_of_accepts, ha, hf]
          · exact hall u hu
    · rintro ⟨l₁, l₂, hl, hacc, hall⟩
      cases l₁ with
      | nil =>
        simp only [List.nil_append] at hl
        obtain ⟨rfl, rfl⟩ : hd = t ∧ rest = l₂ := by
          exact ⟨(List.cons.injEq .. ▸ hl).1, (List.cons.injEq .. ▸ hl).2⟩
        rcases ha : hd.is_type_of with _ | f
        · simp [is_type_of_accepts, ha] at hacc
        · have hf : f value = true := by simpa [is_type_of_accepts, ha] using hacc
          unfold get_type_of
          simp [ha, hf]
      | cons a l₁' =>
        obtain ⟨rfl, hrest⟩ : hd = a ∧ rest = l₁' ++ t :: l₂ := by
          simp only [List.cons_append] at hl
          exact ⟨(List.cons.injEq .. ▸ hl).1, (List.cons.injEq .. ▸ hl).2⟩
        have hhd : is_type_of_accepts hd value = false := hall hd (by simp)
        have htail : get_type_of value rest = some t :=
          ih.mpr ⟨l₁', l₂, hrest, hacc, fun u hu => hall u (by simp [hu])⟩
        unfold get_type_of
        rcases ha : hd.is_type_of with _ | f
        · exact htail
        · have hf : f value = false := by simpa [is_type_of_accepts, ha] using hhd
          simp [hf, htail]

/-- C4: with no explicit resolver, `resolve_type` scans the possible
types in declaration order and returns the first whose `is_type_of` test
accepts the value, or nothing when no member accepts; with an explicit
resolver, `resolve_type` returns exactly the resolver's result (a nil
result included) and never scans.  Stated for interfaces and unions. -/
theorem resolve_type_protocol :
    (∀ (V : Type) (i : GraphQLInterfaceType V) (v : V)
       (r : V → Option (GraphQLObjectType V)),
      i.type_resolver = some r → i.resolve_type v = r v)
    ∧ (∀ (V : Type) (u : GraphQLUnionType V) (v : V)
        (r : V → Option (GraphQLObjectType V)),
      u._resolve_type = some r → u.resolve_type v = r v)
    ∧ (∀ (V : Type) (i : GraphQLInterfaceType V) (v : V),
      i.type_resolver = none →
      ((i.resolve_type v = none ↔
          ∀ t ∈ i.get_possible_types, is_type_of_accepts t v = false)
       ∧ ∀ t, i.resolve_type v = some t ↔
          ∃ l₁ l₂, i.get_possible_types = l₁ ++ t :: l₂ ∧
            is_type_of_accepts t v = true ∧
            ∀ u ∈ l₁, is_type_of_accepts u v = false))
    ∧ (∀ (V : Type) (u : GraphQLUnionType V) (v : V),
      u._resolve_type = none →
      ((u.resolve_type v = none ↔
          ∀ t ∈ u.get_possible_types, is_type_of_accepts t v = false)
       ∧ ∀ t, u.resolve_type v = some t ↔
          ∃ l₁ l₂, u.get_possible_types = l₁ ++ t :: l₂ ∧
            is_type_of_accepts t v = true ∧
            ∀ w ∈ l₁, is_type_of_accepts w v = false)) := by
  refine ⟨?_, ?_, ?_, ?_⟩
  · intro V i v r h
    simp [GraphQLInterfaceType.resolve_type, h]
  · intro V u v r h
    simp [GraphQLUnionType.resolve_type, h]
  · intro V i v h
    refine ⟨?_, fun t => ?_⟩
    · simp [GraphQLInterfaceType.resolve_type, h, get_type_of_eq_none_iff]
    · simp [GraphQLInterfaceType.resolve_type, h, get_type_of_eq_some_iff]
  · intro V u v h
    refine ⟨?_, fun t => ?_⟩
    · simp [GraphQLUnionType.resolve_type, h, get_type_of_eq_none_iff]
    · simp [GraphQLUnionType.resolve_type, h, get_type_of_eq_some_iff]

/-- Closed instantiation of `resolve_type_protocol`: an interface with an
explicit resolver returns exactly the resolver's (nil) result. -/
theorem resolve_type_protocol_witness :
    GraphQLInterfaceType.resolve_type (V := Nat)
      ⟨"Entity", none, some (fun _ => none), []⟩ 0 = none :=
  resolve_type_protocol.1 Nat ⟨"Entity", none, some (fun _ => none), []⟩ 0
    (fun _ => none) rfl

/-- A nonempty valid name is never empty. -/
theorem name_pattern_match_ne_empty {name : String}
    (h : name_pattern_match name = true) : name ≠ "" := by
  intro h0
  subst h0
  simp [name_pattern_match] at h

/-- The union member loop succeeds when the union has a resolver or every
member has a membership test. -/
theorem union_types_check_ok {V : Type} (selfName : String)
    (resolve_type : Option (V → Option (GraphQLObjectType V)))
    (l : List (GraphQLObjectType V))
    (h : resolve_type.isSome = true ∨ ∀ t ∈ l, t.is_type_of.isSome = true) :
    union_types_check selfName resolve_type l = .ok () := by
  induction l with
  | nil => rfl
  | cons hd rest ih =>
    unfold union_types_check
    rcases h with h | h
    · rw [if_pos h]
      exact ih (Or.inl h)
    · have hhd : hd.is_type_of.isSome = true := h hd (by simp)
      have hrest := ih (Or.inr fun t ht => h t (by simp [ht]))
      rcases ha : hd.is_type_of with _ | f
      · simp [ha] at hhd
      · cases hr : resolve_type.isSome <;> simp [hr, ha, hrest]

/-- The union member loop fails at the first member lacking a membership
test when the union has no resolver. -/
theorem union_types_check_error {V : Type} (selfName : String)
    (l₁ l₂ : List (GraphQLObjectType V)) (t : GraphQLObjectType V)
    (ht : t.is_type_of = none) (h₁ : ∀ u ∈ l₁, u.is_type_of.isSome = true) :
    union_types_check selfName (V := V) none (l₁ ++ t :: l₂) =
      .error ("Union Type " ++ selfName ++ " does not provide a \"resolve_type\" function and possible Type " ++ t.name ++ " does not provide a \"is_type_of\" function. There is no way to resolve this possible type during execution.") := by
  induction l₁ with
  | nil =>
    unfold union_types_check
    simp [ht]
  | cons hd rest ih =>
    have hhd : hd.is_type_of.isSome = true := h₁ hd (by simp)
    rcases ha : hd.is_type_of with _ | f
    · simp [ha] at hhd
    · unfold union_types_check
      simp only [List.cons_append, Option.isSome_none, Bool.false_eq_true,
        if_false, ha]
      exact ih fun u hu => h₁ u (by simp [hu])

/-- The interface loop succeeds when the object has a membership test or
every interface has a resolver. -/
theorem define_interfaces_check_ok {V : Type} (type_ : GraphQLObjectType V)
    (l : List (GraphQLInterfaceType V))
    (h : type_.is_type_of.isSome = true ∨
      ∀ iface ∈ l, iface.type_resolver.isSome = true) :
    define_interfaces_check type_ l = .ok () := by
  induction l with
  | nil => rfl
  | cons hd rest ih
  => unfold define_interfaces_check
     rcases h with h | h
     · rcases ha : type_.is_type_of with _ | f
       · simp [ha] at h
       · have hrest := ih (Or.inl (by simp [ha]))
         cases hr : hd.type_resolver.isSome <;> simp [hr, ha, hrest]
     · have hhd : hd.type_resolver.isSome = true := h hd (by simp)
       rw [if_pos hhd]
       exact ih (Or.inr fun i hi => h i (by simp [hi]))

/-- The interface loop fails, citing the implementing type, at the first
resolver-less interface when the object lacks a membership test. -/
theorem define_interfaces_check_error {V : Type} (type_ : GraphQLObjectType V)
    (l₁ l₂ : List (GraphQLInterfaceType V)) (iface : GraphQLInterfaceType V)
    (hobj : type_.is_type_of = none) (hi : iface.type_resolver = none)
    (h₁ : ∀ u ∈ l₁, u.type_resolver.isSome = true) :
    define_interfaces_check type_ (l₁ ++ iface :: l₂) =
      .error ("Interface Type " ++ iface.name ++ " does not provide a \"resolve_type\" function and implementing Type " ++ type_.name ++ " does not provide a \"is_type_of\" function. There is no way to resolve this implementing type during execution.") := by
  induction l₁ with
  | nil =>
    unfold define_interfaces_check
    simp [hi, hobj]
  | cons hd rest ih =>
    have hhd : hd.type_resolver.isSome = true := h₁ hd (by simp)
    unfold define_interfaces_check
    simp only [List.cons_append, if_pos hhd]
    exact ih fun u hu => h₁ u (by simp [hu])

/-- C5: a union built without a resolver fails, with a diagnostic citing
the offending member, as soon as some member object lacks an
`is_type_of` test; resolving an object's interface list fails, citing the
implementing object, when some interface lacks a resolver and the object
lacks `is_type_of`; and construction succeeds when every member supplies
a membership test or the abstract type supplies a resolver. -/
theorem abstract_type_resolvability_enforced :
    (∀ (V : Type) (name : String) (d : Option String)
       (l₁ l₂ : List (GraphQLObjectType V)) (t : GraphQLObjectType V),
      name_pattern_match name = true → t.is_type_of = none →
      (∀ u ∈ l₁, u.is_type_of.isSome = true) →
      GraphQLUnionType.init V name (l₁ ++ t :: l₂) none d =
        .error ("Union Type " ++ name ++ " does not provide a \"resolve_type\" function and possible Type " ++ t.name ++ " does not provide a \"is_type_of\" function. There is no way to resolve this possible type during execution."))
    ∧ (∀ (V : Type) (name : String) (d : Option String)
        (types : List (GraphQLObjectType V)) (r : V → Option (GraphQLObjectType V)),
      name_pattern_match name = true → types ≠ [] →
      (GraphQLUnionType.init V name types (some r) d).isOk = true)
    ∧ (∀ (V : Type) (name : String) (d : Option String)
        (types : List (GraphQLObjectType V)),
      name_pattern_match name = true → types ≠ [] →
      (∀ t ∈ types, t.is_type_of.isSome = true) →
      (GraphQLUnionType.init V name types none d).isOk = true)
    ∧ (∀ (V : Type) (obj : GraphQLObjectType V)
        (l₁ l₂ : List (GraphQLInterfaceType V)) (iface : GraphQLInterfaceType V),
      obj.is_type_of = none → iface.type_resolver = none →
      (∀ u ∈ l₁, u.type_resolver.isSome = true) →
      define_interfaces obj (.value (.listed (l₁ ++ iface :: l₂))) =
        .error ("Interface Type " ++ iface.name ++ " does not provide a \"resolve_type\" function and implementing Type " ++ obj.name ++ " does not provide a \"is_type_of\" function. There is no way to resolve this implementing type during execution."))
    ∧ (∀ (V : Type) (obj : GraphQLObjectType V)
        (l : List (GraphQLInterfaceType V)),
      (obj.is_type_of.isSome = true ∨ ∀ iface ∈ l, iface.type_resolver.isSome = true) →
      (define_interfaces obj (.value (.listed l))).isOk = true) := by
  refine ⟨?_, ?_, ?_, ?_, ?_⟩
  · intro V name d l₁ l₂ t hname ht h₁
    have hne := name_pattern_match_ne_empty hname
    have hchk := union_types_check_error name l₁ l₂ t ht h₁
    simp [GraphQLUnionType.init, hne, assert_valid_name, hname, hchk]
  · intro V name d types r hname htypes
    have hne := name_pattern_match_ne_empty hname
    have hchk := union_types_check_ok name (some r) types (Or.inl rfl)
    simp [GraphQLUnionType.init, hne, assert_valid_name, hname, htypes, hchk, Except.isOk, Except.toBool]
  · intro V name d types hname htypes hall
    have hne := name_pattern_match_ne_empty hname
    have hchk := union_types_check_ok name none types (Or.inr hall)
    simp [GraphQLUnionType.init, hne, assert_valid_name, hname, htypes, hchk, Except.isOk, Except.toBool]
  · intro V obj l₁ l₂ iface hobj hi h₁
    have hchk := define_interfaces_check_error obj l₁ l₂ iface hobj hi h₁
    simp [define_interfaces, hchk]
  · intro V obj l h
    have hchk := define_interfaces_check_ok obj l h
    simp [define_interfaces, hchk, Except.isOk, Except.toBool]

/-- Closed instantiation of `abstract_type_resolvability_enforced`: a
union of the single test-less object "SomeObject" and no resolver fails
citing "SomeObject". -/
theorem abstract_type_resolvability_enforced_witness :
    GraphQLUnionType.init Nat "SomeUnion" [⟨"SomeObject", none, none⟩] none none =
      .error ("Union Type SomeUnion does not provide a \"resolve_type\" function and possible Type SomeObject does not provide a \"is_type_of\" function. There is no way to resolve this possible type during execution.") :=
  abstract_type_resolvability_enforced.1 Nat "SomeUnion" none [] []
    ⟨"SomeObject", none, none⟩ (by decide) rfl (by simp)

/-- C6: scalar construction fails without `serialize`; fails when
`serialize` comes with exactly one of `parse_value`/`parse_literal`; and
succeeds with both or neither of that pair, given a valid name. -/
theorem scalar_construction_requirements :
    ∀ (V : Type) (name : String) (d : Option String),
      name_pattern_match name = true →
      (∀ pv pl : Option (V → V),
        (GraphQLScalarType.init V name d none pv pl).isOk = false)
      ∧ (∀ s pv : V → V,
        (GraphQLScalarType.init V name d (some s) (some pv) none).isOk = false)
      ∧ (∀ s pl : V → V,
        (GraphQLScalarType.init V name d (some s) none (some pl)).isOk = false)
      ∧ (∀ s : V → V,
        (GraphQLScalarType.init V name d (some s) none none).isOk = true)
      ∧ (∀ s pv pl : V → V,
        (GraphQLScalarType.init V name d (some s) (some pv) (some pl)).isOk = true) := by
  intro V name d h
  have hne := name_pattern_match_ne_empty h
  refine ⟨?_, ?_, ?_, ?_, ?_⟩ <;> intros <;>
    simp [GraphQLScalarType.init, assert_valid_name, h, hne, Except.isOk, Except.toBool]

/-- Closed instantiation of `scalar_construction_requirements`: a scalar
with `serialize` alone builds, one with `serialize` and `parse_value` but
no `parse_literal` does not. -/
theorem scalar_construction_requirements_witness :
    (GraphQLScalarType.init Nat "SomeScalar" none (some id) none none).isOk = true
    ∧ (GraphQLScalarType.init Nat "SomeScalar" none (some id) (some id) none).isOk
        = false :=
  ⟨(scalar_construction_requirements Nat "SomeScalar" none (by decide)).2.2.2.1 id,
   (scalar_construction_requirements Nat "SomeScalar" none (by decide)).2.1 id id⟩

/-- Stripping modifiers always reaches a non-modifier type. -/
theorem get_named_type_not_modifier (t : GQLType) :
    (get_named_type t).classOf ≠ .list ∧ (get_named_type t).classOf ≠ .nonNull := by
  induction t with
  | scalar n d => simp [get_named_type, GQLType.classOf]
  | object n d => simp [get_named_type, GQLType.classOf]
  | interface n d => simp [get_named_type, GQLType.classOf]
  | union n d => simp [get_named_type, GQLType.classOf]
  | enum n d => simp [get_named_type, GQLType.classOf]
  | inputObject n d => simp [get_named_type, GQLType.classOf]
  | list a ih => simpa [get_named_type] using ih
  | nonNull a ih => simpa [get_named_type] using ih

/-- A type is never structurally equal to its own List or NonNull wrapping. -/
theorem is_same_type_not_wrap (t : GQLType) :
    t.is_same_type (.nonNull t) = false ∧ t.is_same_type (.list t) = false := by
  induction t with
  | scalar n d => simp [GQLType.is_same_type, GQLType.classOf]
  | object n d => simp [GQLType.is_same_type, GQLType.classOf]
  | interface n d => simp [GQLType.is_same_type, GQLType.classOf]
  | union n d => simp [GQLType.is_same_type, GQLType.classOf]
  | enum n d => simp [GQLType.is_same_type, GQLType.classOf]
  | inputObject n d => simp [GQLType.is_same_type, GQLType.classOf]
  | list a ih => simpa [GQLType.is_same_type] using ih.2
  | nonNull a ih => simpa [GQLType.is_same_type] using ih.1

/-- C1: `is_same_type` implements structural equality: named types with the
same variant tag and name compare equal regardless of any other attribute
(object identity plays no role); a List (resp. NonNull) compares equal to
`b` exactly when `b` is a List (resp. NonNull) whose wrapped type is
recursively `is_same_type`; and no type is equal to a NonNull or List
wrapping of it (covering String vs NonNull(String) and List(String) vs
NonNull(List(String))). -/
theorem is_same_type_structural_equality :
    (∀ (c : TypeClass) (n : String) (d₁ d₂ : Option String), c.isNamed = true →
      (mkNamed c n d₁).is_same_type (mkNamed c n d₂) = true)
    ∧ (∀ a b : GQLType, (GQLType.list a).is_same_type b = true ↔
        ∃ b', b = .list b' ∧ a.is_same_type b' = true)
    ∧ (∀ a b : GQLType, (GQLType.nonNull a).is_same_type b = true ↔
        ∃ b', b = .nonNull b' ∧ a.is_same_type b' = true)
    ∧ (∀ t : GQLType, t.is_same_type (.nonNull t) = false ∧
        t.is_same_type (.list t) = false) := by
  refine ⟨?_, ?_, ?_, is_same_type_not_wrap⟩
  · intro c n d₁ d₂ hc
    cases c <;> simp_all [mkNamed, GQLType.is_same_type, GQLType.classOf,
      GQLType.name, TypeClass.isNamed]
  · intro a b
    cases b <;> simp [GQLType.is_same_type]
  · intro a b
    cases b <;> simp [GQLType.is_same_type]

/-- Closed instantiation of `is_same_type_structural_equality`: two distinct
Scalar values named "String" (differing descriptions) are `is_same_type`. -/
theorem is_same_type_structural_equality_witness :
    (GQLType.scalar "String" none).is_same_type
      (GQLType.scalar "String" (some "utf8")) = true :=
  is_same_type_structural_equality.1 .scalar "String" none (some "utf8") rfl

/-- C2: `is_output_type` holds exactly when the fully stripped form is a
Scalar, Object, Interface, Union or Enum; `is_input_type` exactly when the
stripped form is a Scalar, Enum or InputObject; both predicates are
invariant under List/NonNull wrapping; Object/Interface/Union are never
input types, InputObject is never an output type, and Scalar and Enum are
both. -/
theorem classification_by_named_type :
    (∀ t : GQLType,
      ((get_named_type t).classOf ≠ .list ∧ (get_named_type t).classOf ≠ .nonNull)
      ∧ (is_output_type t = true ↔
          ((get_named_type t).classOf = .scalar ∨ (get_named_type t).classOf = .object ∨
           (get_named_type t).classOf = .interface ∨ (get_named_type t).classOf = .union ∨
           (get_named_type t).classOf = .enum))
      ∧ (is_input_type t = true ↔
          ((get_named_type t).classOf = .scalar ∨ (get_named_type t).classOf = .enum ∨
           (get_named_type t).classOf = .inputObject))
      ∧ is_output_type (GQLType.list t) = is_output_type t
      ∧ is_output_type (GQLType.nonNull t) = is_output_type t
      ∧ is_input_type (GQLType.list t) = is_input_type t
      ∧ is_input_type (GQLType.nonNull t) = is_input_type t)
    ∧ (∀ (n : String) (d : Option String),
      is_input_type (.object n d) = false ∧ is_input_type (.interface n d) = false
      ∧ is_input_type (.union n d) = false ∧ is_output_type (.inputObject n d) = false
      ∧ is_input_type (.scalar n d) = true ∧ is_output_type (.scalar n d) = true
      ∧ is_input_type (.enum n d) = true ∧ is_output_type (.enum n d) = true) := by
  constructor
  · intro t
    refine ⟨get_named_type_not_modifier t, ?_, ?_, rfl, rfl, rfl, rfl⟩
    · cases h : get_named_type t <;> simp [is_output_type, h, GQLType.classOf]
    · cases h : get_named_type t <;> simp [is_input_type, h, GQLType.classOf]
  · intro n d
    exact ⟨rfl, rfl, rfl, rfl, rfl, rfl, rfl, rfl⟩


/-- C3 evidence: building an enum from a value map whose single entry
"ONLY" was constructed without an explicit internal value leaves that
entry's `value` attribute `none` -- it is not defaulted to the name
"ONLY", contrary to the class docstring (definition.py line 382). -/
theorem enum_internal_value_not_defaulted :
    define_enum_values (E := String) [⟨none, none, none, none⟩] "SomeEnum"
      [("ONLY", 0)] = .ok ([⟨some "ONLY", none, none, none⟩], [0])
    ∧ (([⟨some "ONLY", none, none, none⟩] : EnumHeap String).getD 0
        ⟨none, none, none, none⟩).value = none
    ∧ (([⟨some "ONLY", none, none, none⟩] : EnumHeap String).getD 0
        ⟨none, none, none, none⟩).value ≠ some "ONLY" := by
  refine ⟨rfl, rfl, by simp⟩

/-- In-place name assignment preserves the number of enum-value objects. -/
theorem enum_name_upd_length {E : Type} (h : EnumHeap E) (p : String × Addr) :
    (enum_name_upd h p).length = h.length := by
  simp [enum_name_upd]

/-- Reading the updated address after an in-place name assignment. -/
theorem enum_name_upd_getD_self {E : Type} (h : EnumHeap E) (p : String × Addr)
    (hlt : p.2 < h.length) :
    (enum_name_upd h p).getD p.2 ⟨none, none, none, none⟩ =
      { h.getD p.2 ⟨none, none, none, none⟩ with name := some p.1 } := by
  simp [enum_name_upd, List.getD_eq_getElem?_getD, List.getElem?_set_self',
    List.getElem?_eq_getElem hlt]

/-- Reading another address after an in-place name assignment. -/
theorem enum_name_upd_getD_ne {E : Type} (h : EnumHeap E) (p : String × Addr)
    (a : Addr) (hne : p.2 ≠ a) :
    (enum_name_upd h p).getD a ⟨none, none, none, none⟩ =
      h.getD a ⟨none, none, none, none⟩ := by
  simp [enum_name_upd, List.getD_eq_getElem?_getD, List.getElem?_set_ne hne]

/-- With valid names, the enum-value loop returns the in-place updated
heap and exactly the caller's objects, in map order. -/
theorem define_enum_values_loop_eq {E : Type} (l : List (String × Addr)) :
    ∀ h : EnumHeap E, (∀ p ∈ l, name_pattern_match p.1 = true) →
      define_enum_values_loop h l = .ok (l.foldl enum_name_upd h, l.map Prod.snd) := by
  induction l with
  | nil => intro h _; rfl
  | cons p rest ih =>
    intro h hv
    obtain ⟨k, a⟩ := p
    have hk : name_pattern_match k = true := hv (k, a) (by simp)
    unfold define_enum_values_loop
    rw [ih (enum_name_upd h (k, a)) (fun q hq => hv q (by simp [hq]))]
    simp [assert_valid_name, hk]

/-- Characterization of the heap after the in-place updates: at each
valid address the record is the original one with its `name` set to the
key of the last map entry referring to that address. -/
theorem foldl_enum_upd_get {E : Type} (l : List (String × Addr)) :
    ∀ (h : EnumHeap E) (a : Addr), a < h.length →
      (l.foldl enum_name_upd h).getD a ⟨none, none, none, none⟩ =
        { h.getD a ⟨none, none, none, none⟩ with
          name := match last_assigned_key a l with
            | some k => some k
            | none => (h.getD a ⟨none, none, none, none⟩).name } := by
  induction l with
  | nil =>
    intro h a ha
    rfl
  | cons p rest ih =>
    intro h a ha
    have ha' : a < (enum_name_upd h p).length := by
      rw [enum_name_upd_length]; exact ha
    rw [List.foldl_cons, ih (enum_name_upd h p) a ha']
    by_cases hpa : p.2 = a
    · have hgot := enum_name_upd_getD_self h p (by rw [hpa]; exact ha)
      rw [hpa] at hgot
      rw [hgot]
      cases hk : last_assigned_key a rest <;> simp [last_assigned_key, hk, hpa]
    · have hgot := enum_name_upd_getD_ne h p a hpa
      rw [hgot]
      cases hk : last_assigned_key a rest <;> simp [last_assigned_key, hk, hpa]

/-- Splitting the last-assignment lookup over an append. -/
theorem last_assigned_key_append (a : Addr) (x y : List (String × Addr)) :
    last_assigned_key a (x ++ y) =
      match last_assigned_key a y with
      | some k => some k
      | none => last_assigned_key a x := by
  induction x with
  | nil => cases hk : last_assigned_key a y <;> simp [last_assigned_key, hk]
  | cons p rest ih =>
    have step : last_assigned_key a ((p :: rest) ++ y) =
        match last_assigned_key a (rest ++ y) with
        | some k => some k
        | none => if p.2 = a then some p.1 else none := rfl
    rw [step, ih]
    cases hk : last_assigned_key a y <;> cases hr : last_assigned_key a rest <;>
      simp [last_assigned_key, hk, hr]

/-- A list with no entry at address `a` assigns it no key. -/
theorem last_assigned_key_none (a : Addr) (l : List (String × Addr))
    (h : ∀ p ∈ l, p.2 ≠ a) : last_assigned_key a l = none := by
  induction l with
  | nil => rfl
  | cons p rest ih =>
    have hp : p.2 ≠ a := h p (by simp)
    have hr := ih fun q hq => h q (by simp [hq])
    simp [last_assigned_key, hr, hp]

/-- C10: define_enum_values does not copy enum values: the returned
entries are exactly the caller's objects in map order (so an object
reused under two keys yields the same object twice), and the map key is
assigned as `name` in place on the caller's object, the last assignment
to a shared object winning; all other attributes, `value` included, are
left untouched. -/
theorem enum_values_assigned_in_place :
    ∀ (E : Type) (h : EnumHeap E) (ty : String) (vm : List (String × Addr)),
      (∀ p ∈ vm, name_pattern_match p.1 = true) →
      vm ≠ [] →
      define_enum_values h ty vm = .ok (vm.foldl enum_name_upd h, vm.map Prod.snd)
      ∧ (∀ a, a < h.length →
          (vm.foldl enum_name_upd h).getD a ⟨none, none, none, none⟩ =
            { h.getD a ⟨none, none, none, none⟩ with
              name := match last_assigned_key a vm with
                | some k => some k
                | none => (h.getD a ⟨none, none, none, none⟩).name })
      ∧ ∀ (l₁ l₂ l₃ : List (String × Addr)) (k₁ k₂ : String) (a : Addr),
          vm = l₁ ++ (k₁, a) :: l₂ ++ (k₂, a) :: l₃ →
          (∀ p ∈ l₃, p.2 ≠ a) → a < h.length →
          (vm.foldl enum_name_upd h).getD a ⟨none, none, none, none⟩ =
            { h.getD a ⟨none, none, none, none⟩ with name := some k₂ } := by
  intro E h ty vm hnames hne
  refine ⟨?_, ?_, ?_⟩
  · unfold define_enum_values
    rw [if_neg (by simpa using hne)]
    exact define_enum_values_loop_eq vm h hnames
  · intro a ha
    exact foldl_enum_upd_get vm h a ha
  · intro l₁ l₂ l₃ k₁ k₂ a hdec hlast ha
    have h3 : last_assigned_key a l₃ = none := last_assigned_key_none a l₃ hlast
    have hinner : last_assigned_key a ((k₂, a) :: l₃) = some k₂ := by
      simp [last_assigned_key, h3]
    have hkey : last_assigned_key a vm = some k₂ := by
      rw [hdec, last_assigned_key_append, hinner]
    rw [foldl_enum_upd_get vm h a ha, hkey]

/-- Closed instantiation of `enum_values_assigned_in_place`: one enum
value object (internal value 7) reused under keys "FOO" then "BAR" is
returned twice as address 0, and ends up named "BAR" with its internal
value untouched. -/
theorem enum_values_assigned_in_place_witness :
    define_enum_values [⟨none, some 7, none, none⟩] "RGB" [("FOO", 0), ("BAR", 0)] =
      .ok ([("FOO", 0), ("BAR", 0)].foldl enum_name_upd [⟨none, some 7, none, none⟩],
        [0, 0])
    ∧ ([("FOO", 0), ("BAR", 0)].foldl enum_name_upd
        [(⟨none, some 7, none, none⟩ : GraphQLEnumValue Nat)]).getD 0
        ⟨none, none, none, none⟩ =
      ⟨some "BAR", some 7, none, none⟩ :=
  ⟨(enum_values_assigned_in_place Nat [⟨none, some 7, none, none⟩] "RGB"
      [("FOO", 0), ("BAR", 0)] (by decide) (by decide)).1,
   (enum_values_assigned_in_place Nat [⟨none, some 7, none, none⟩] "RGB"
      [("FOO", 0), ("BAR", 0)] (by decide) (by decide)).2.2 [] [] [] "FOO" "BAR" 0
      rfl (by simp) (by decide)⟩

/-- A cell with a populated cache returns it without touching anything. -/
theorem get_fields_cached (h : Heap) (ty : String) (x : FieldsArg)
    (fm : List (String × Addr)) :
    get_fields h ty ⟨x, some fm⟩ = (.ok fm, h, ⟨x, some fm⟩, 0) := rfl

/-- Repeated calls on a cached cell return the cached map every time with
zero producer invocations. -/
theorem run_get_fields_calls_cached (h : Heap) (ty : String) (x : FieldsArg)
    (fm : List (String × Addr)) :
    ∀ n, run_get_fields_calls h ty ⟨x, some fm⟩ n =
      (List.replicate n (.ok fm), h, ⟨x, some fm⟩, 0) := by
  intro n
  induction n with
  | zero => rfl
  | succ m ih =>
    unfold run_get_fields_calls
    rw [get_fields_cached]
    simp [ih, List.replicate_succ]

/-- The input-object variant of `get_fields_cached`. -/
theorem input_object_get_fields_cached (h : Heap) (ty : String) (x : FieldsArg)
    (fm : List (String × Addr)) :
    input_object_get_fields h ty ⟨x, some fm⟩ = (.ok fm, h, ⟨x, some fm⟩, 0) := rfl

/-- The input-object variant of `run_get_fields_calls_cached`. -/
theorem run_input_object_get_fields_calls_cached (h : Heap) (ty : String)
    (x : FieldsArg) (fm : List (String × Addr)) :
    ∀ n, run_input_object_get_fields_calls h ty ⟨x, some fm⟩ n =
      (List.replicate n (.ok fm), h, ⟨x, some fm⟩, 0) := by
  intro n
  induction n with
  | zero => rfl
  | succ m ih =>
    unfold run_input_object_get_fields_calls
    rw [input_object_get_fields_cached]
    simp [ih, List.replicate_succ]

/-- A producer-backed define_field_map call counts one invocation. -/
theorem define_field_map_producer_count (h : Heap) (ty : String)
    (f : Unit → FieldsVal) : (define_field_map h ty (.producer f)).2 = 1 := by
  cases hf : f () with
  | mapping es => cases es <;> simp [define_field_map, hf]
  | nil => simp [define_field_map, hf]
  | notMapping => simp [define_field_map, hf]

/-- The input-object variant of `define_field_map_producer_count`. -/
theorem input_object_define_field_map_producer_count (h : Heap) (ty : String)
    (f : Unit → FieldsVal) :
    (input_object_define_field_map h ty (.producer f)).2 = 1 := by
  cases hf : f () with
  | mapping es => cases es <;> simp [input_object_define_field_map, hf]
  | nil => simp [input_object_define_field_map, hf]
  | notMapping => simp [input_object_define_field_map, hf]

/-- C7: field-map resolution through a zero-argument producer is memoized
per instance, for the object/interface get_fields and the input-object
get_fields alike: a first successful resolution invokes the producer
exactly once (n = 1) and fills the `_field_map` cache with the resolved
mapping, and any number of further calls returns that identical cached
mapping with zero further producer invocations, leaving the heap and the
instance untouched. -/
theorem field_map_producer_memoized :
    (∀ (h : Heap) (ty : String) (f : Unit → FieldsVal)
       (fm : List (String × Addr)) (h₂ : Heap) (n : Nat),
      define_field_map h ty (.producer f) = (.ok (h₂, fm), n) →
      n = 1
      ∧ get_fields h ty ⟨.producer f, none⟩ =
          (.ok fm, h₂, ⟨.producer f, some fm⟩, n)
      ∧ ∀ m, run_get_fields_calls h₂ ty ⟨.producer f, some fm⟩ m =
          (List.replicate m (.ok fm), h₂, ⟨.producer f, some fm⟩, 0))
    ∧ (∀ (h : Heap) (ty : String) (f : Unit → FieldsVal)
        (fm : List (String × Addr)) (h₂ : Heap) (n : Nat),
      input_object_define_field_map h ty (.producer f) = (.ok (h₂, fm), n) →
      n = 1
      ∧ input_object_get_fields h ty ⟨.producer f, none⟩ =
          (.ok fm, h₂, ⟨.producer f, some fm⟩, n)
      ∧ ∀ m, run_input_object_get_fields_calls h₂ ty ⟨.producer f, some fm⟩ m =
          (List.replicate m (.ok fm), h₂, ⟨.producer f, some fm⟩, 0)) := by
  constructor
  · intro h ty f fm h₂ n heq
    have hcnt := define_field_map_producer_count h ty f
    rw [heq] at hcnt
    subst hcnt
    refine ⟨rfl, ?_, ?_⟩
    · unfold get_fields
      rw [heq]
    · intro m
      exact run_get_fields_calls_cached h₂ ty (.producer f) fm m
  · intro h ty f fm h₂ n heq
    have hcnt := input_object_define_field_map_producer_count h ty f
    rw [heq] at hcnt
    subst hcnt
    refine ⟨rfl, ?_, ?_⟩
    · unfold input_object_get_fields
      rw [heq]
    · intro m
      exact run_input_object_get_fields_calls_cached h₂ ty (.producer f) fm m

/-- Closed instantiation of `field_map_producer_memoized`: after a first
resolution of the producer-supplied map `{"f": <field at address 0>}`,
two further get_fields calls both return the cached map with zero
further producer invocations. -/
theorem field_map_producer_memoized_witness :
    run_get_fields_calls
      ⟨[⟨none, GQLType.scalar "String" none, .nil, none, none, none⟩,
        ⟨some "f", GQLType.scalar "String" none, .resolved [], none, none, none⟩],
       [], []⟩
      "SomeObject"
      ⟨.producer (fun _ => FieldsVal.mapping [("f", 0)]), some [("f", 1)]⟩ 2 =
    (List.replicate 2 (.ok [("f", 1)]),
     ⟨[⟨none, GQLType.scalar "String" none, .nil, none, none, none⟩,
       ⟨some "f", GQLType.scalar "String" none, .resolved [], none, none, none⟩],
      [], []⟩,
     ⟨.producer (fun _ => FieldsVal.mapping [("f", 0)]), some [("f", 1)]⟩, 0) :=
  (field_map_producer_memoized.1
    ⟨[⟨none, GQLType.scalar "String" none, .nil, none, none, none⟩], [], []⟩
    "SomeObject" (fun _ => FieldsVal.mapping [("f", 0)]) [("f", 1)]
    ⟨[⟨none, GQLType.scalar "String" none, .nil, none, none, none⟩,
      ⟨some "f", GQLType.scalar "String" none, .resolved [], none, none, none⟩],
     [], []⟩ 1 rfl).2.2 2

/-- C9: the bridge passes a non-pending resolver result through unchanged;
a pending host computation yields a fresh pending Deferred whose
completion handler settles it to the same success value via `callback`
or to the same raised exception via `errback`. -/
theorem run_resolve_fn_bridge :
    (∀ (V E : Type) (v : V),
      run_resolve_fn (E := E) (fun _ => .plain v) = .value v)
    ∧ (∀ (V E : Type) (outcome : FutureOutcome V E),
      run_resolve_fn (fun _ => .future outcome) = .deferred .pending outcome)
    ∧ (∀ (V E : Type) (v : V),
      process_future_result (E := E) .pending (.ok v) =
          (DeferredState.pending : DeferredState V E).callback v
        ∧ (DeferredState.pending : DeferredState V E).callback v = .called v)
    ∧ (∀ (V E : Type) (e : E),
      process_future_result (V := V) .pending (.error e) =
          (DeferredState.pending : DeferredState V E).errback e
        ∧ (DeferredState.pending : DeferredState V E).errback e = .erred e) :=
  ⟨fun _ _ _ => rfl, fun _ _ _ => rfl,
   fun _ _ _ => ⟨rfl, rfl⟩, fun _ _ _ => ⟨rfl, rfl⟩⟩

/-- Appending an argument object leaves reads of existing arguments
unchanged. -/
theorem argAt_append (h : Heap) (x : GraphQLArgument) (a : Addr)
    (ha : a < h.args.length) :
    Heap.argAt { h with args := h.args ++ [x] } a = h.argAt a := by
  simp [Heap.argAt, List.getD_eq_getElem?_getD, List.getElem?_append_left ha]

/-- Field reads agree on heaps with equal field stores. -/
theorem fieldAt_of_fields_eq {h h' : Heap} (e : h'.fields = h.fields) (a : Addr) :
    h'.fieldAt a = h.fieldAt a := by
  simp [Heap.fieldAt, e]

/-- Frame and copy specification of the argument loop: the caller's
argument objects are untouched, each resolved entry is a fresh, distinct
object equal to its source except that its `name` is the map key. -/
theorem resolve_field_args_spec (ty fn : String) :
    ∀ (entries : List (String × Addr)) (h h' : Heap) (addrs : List Addr),
      (∀ p ∈ entries, p.2 < h.args.length) →
      resolve_field_args h ty fn entries = .ok (h', addrs) →
      h'.fields = h.fields
      ∧ h'.input_fields = h.input_fields
      ∧ h.args.length ≤ h'.args.length
      ∧ (∀ i, i < h.args.length → h'.args[i]? = h.args[i]?)
      ∧ addrs.length = entries.length
      ∧ (∀ x ∈ addrs, h.args.length ≤ x)
      ∧ addrs.Nodup
      ∧ (∀ j (hj : j < entries.length) (ha : j < addrs.length),
          h'.args[addrs.get ⟨j, ha⟩]? =
            some { h.argAt (entries.get ⟨j, hj⟩).2 with
              name := some (entries.get ⟨j, hj⟩).1 }) := by
  intro entries
  induction entries with
  | nil =>
    intro h h' addrs hv heq
    simp only [resolve_field_args] at heq
    have hpair := Except.ok.inj heq
    have hh : h = h' := congrArg Prod.fst hpair
    have has : ([] : List Addr) = addrs := congrArg Prod.snd hpair
    subst hh
    subst has
    refine ⟨rfl, rfl, le_refl _, fun i _ => rfl, rfl, by simp, List.nodup_nil, ?_⟩
    intro j hj
    exact absurd hj (by simp)
  | cons p rest ih =>
    intro h h' addrs hv heq
    obtain ⟨k, a⟩ := p
    have hva : a < h.args.length := hv (k, a) (by simp)
    unfold resolve_field_args at heq
    cases hak : assert_valid_name k with
    | error e => rw [hak] at heq; exact absurd heq (by simp)
    | ok u =>
      rw [hak] at heq
      by_cases hin : is_input_type (h.argAt a).type = false
      · rw [if_pos hin] at heq; exact absurd heq (by simp)
      · rw [if_neg hin] at heq
        cases hrec : resolve_field_args
            { h with args := h.args ++ [{ h.argAt a with name := some k }] }
            ty fn rest with
        | error e => rw [hrec] at heq; exact absurd heq (by simp)
        | ok q =>
          obtain ⟨h₂, addrs'⟩ := q
          rw [hrec] at heq
          have hpair := Except.ok.inj heq
          have hh : h₂ = h' := congrArg Prod.fst hpair
          have has : h.args.length :: addrs' = addrs := congrArg Prod.snd hpair
          subst hh
          subst has
          have hlen₁ : ({ h with
              args := h.args ++ [{ h.argAt a with name := some k }] } : Heap).args.length
              = h.args.length + 1 := by simp
          have hv' : ∀ p ∈ rest, p.2 < ({ h with
              args := h.args ++ [{ h.argAt a with name := some k }] } : Heap).args.length := by
            intro p hp
            rw [hlen₁]
            exact Nat.lt_succ_of_lt (hv p (by simp [hp]))
          obtain ⟨hf, hifr, hle, hfr, hlenaddrs, hge, hnd, hcorr⟩ :=
            ih { h with args := h.args ++ [{ h.argAt a with name := some k }] }
              h₂ addrs' hv' hrec
          rw [hlen₁] at hle hfr hge
          refine ⟨by simpa using hf, by simpa using hifr, ?_, ?_, ?_, ?_, ?_, ?_⟩
          · omega
          · intro i hi
            rw [hfr i (by omega)]
            exact List.getElem?_append_left hi
          · simpa using hlenaddrs
          · intro x hx
            rcases List.mem_cons.mp hx with rfl | hx
            · exact le_refl _
            · have := hge x hx
              omega
          · refine List.nodup_cons.mpr ⟨?_, hnd⟩
            intro hmem
            have := hge _ hmem
            omega
          · intro j hj ha
            cases j with
            | zero =>
              have h1 : h₂.args[h.args.length]? =
                  ({ h with args := h.args ++
                    [{ h.argAt a with name := some k }] } : Heap).args[h.args.length]? :=
                hfr h.args.length (by omega)
              simp only [List.get]
              rw [h1]
              exact List.getElem?_concat_length h.args
                { h.argAt a with name := some k }
            | succ j =>
              have hj' : j < rest.length := by simpa using hj
              have ha' : j < addrs'.length := by simpa using ha
              have := hcorr j hj' ha'
              have hsrc : (rest.get ⟨j, hj'⟩).2 < h.args.length :=
                hv (rest.get ⟨j, hj'⟩) (by simp [List.get_mem])
              rw [argAt_append h { h.argAt a with name := some k } _ hsrc] at this
              simpa [List.get] using this

/-- Appending a field object leaves reads of existing fields unchanged. -/
theorem fieldAt_append (h : Heap) (x : GraphQLField) (a : Addr)
    (ha : a < h.fields.length) :
    Heap.fieldAt { h with fields := h.fields ++ [x] } a = h.fieldAt a := by
  simp [Heap.fieldAt, List.getD_eq_getElem?_getD, List.getElem?_append_left ha]

/-- The args-normalization step only ever appends argument copies: the
field and input-field stores and all existing argument objects are
untouched. -/
theorem normalize_field_args_spec (ty fn : String) (h : Heap) (av : ArgsVal)
    (h₁ : Heap) (na : ArgsVal)
    (hv : ∀ x ∈ av.srcAddrs, x < h.args.length)
    (heq : normalize_field_args h ty fn av = .ok (h₁, na)) :
    h₁.fields = h.fields ∧ h₁.input_fields = h.input_fields
    ∧ h.args.length ≤ h₁.args.length
    ∧ (∀ i, i < h.args.length → h₁.args[i]? = h.args[i]?) := by
  cases av with
  | nil =>
    simp only [normalize_field_args] at heq
    have hh : h = h₁ := congrArg Prod.fst (Except.ok.inj heq)
    subst hh
    exact ⟨rfl, rfl, le_refl _, fun i _ => rfl⟩
  | map es =>
    cases es with
    | nil =>
      simp only [normalize_field_args] at heq
      have hh : h = h₁ := congrArg Prod.fst (Except.ok.inj heq)
      subst hh
      exact ⟨rfl, rfl, le_refl _, fun i _ => rfl⟩
    | cons e es' =>
      simp only [normalize_field_args] at heq
      cases hres : resolve_field_args h ty fn (e :: es') with
      | error er => rw [hres] at heq; exact absurd heq (by simp)
      | ok q =>
        obtain ⟨h', addrs⟩ := q
        rw [hres] at heq
        have hh : h' = h₁ := congrArg Prod.fst (Except.ok.inj heq)
        have hv' : ∀ p ∈ (e :: es'), p.2 < h.args.length := fun p hp =>
          hv p.2 (List.mem_map_of_mem Prod.snd hp)
        obtain ⟨hf, hif, hle, hfr, _, _, _, _⟩ :=
          resolve_field_args_spec ty fn (e :: es') h h' addrs hv' hres
        rw [hh] at hf hif hle hfr
        exact ⟨hf, hif, hle, hfr⟩
  | resolved as =>
    cases as with
    | nil =>
      simp only [normalize_field_args] at heq
      have hh : h = h₁ := congrArg Prod.fst (Except.ok.inj heq)
      subst hh
      exact ⟨rfl, rfl, le_refl _, fun i _ => rfl⟩
    | cons x xs =>
      simp only [normalize_field_args] at heq
      exact absurd heq (by simp)

/-- Frame and copy specification of the field loop: the caller's field
and argument objects are untouched, the resolved map carries the keys in
order, and each resolved entry is a fresh, pairwise-distinct object equal
to its source field except that its `name` is the map key and its `args`
are the resolved copies. -/
theorem define_field_map_loop_spec (ty : String) :
    ∀ (entries : List (String × Addr)) (h h' : Heap) (fm : List (String × Addr)),
      (∀ p ∈ entries, p.2 < h.fields.length ∧
        ∀ x ∈ (h.fieldAt p.2).args.srcAddrs, x < h.args.length) →
      define_field_map_loop h ty entries = .ok (h', fm) →
      (∀ i, i < h.fields.length → h'.fields[i]? = h.fields[i]?)
      ∧ (∀ i, i < h.args.length → h'.args[i]? = h.args[i]?)
      ∧ h.fields.length ≤ h'.fields.length
      ∧ h.args.length ≤ h'.args.length
      ∧ fm.map Prod.fst = entries.map Prod.fst
      ∧ (∀ x ∈ fm.map Prod.snd, h.fields.length ≤ x)
      ∧ (fm.map Prod.snd).Nodup
      ∧ (∀ j (hj : j < entries.length) (hf : j < fm.length),
          ∃ newArgs,
            h'.fields[(fm.get ⟨j, hf⟩).2]? =
              some { h.fieldAt (entries.get ⟨j, hj⟩).2 with
                name := some (entries.get ⟨j, hj⟩).1, args := newArgs }) := by
  intro entries
  induction entries with
  | nil =>
    intro h h' fm hv heq
    simp only [define_field_map_loop] at heq
    have hpair := Except.ok.inj heq
    have hh : h = h' := congrArg Prod.fst hpair
    have hfm : ([] : List (String × Addr)) = fm := congrArg Prod.snd hpair
    subst hh
    subst hfm
    refine ⟨fun i _ => rfl, fun i _ => rfl, le_refl _, le_refl _, rfl, by simp,
      by simp, ?_⟩
    intro j hj
    exact absurd hj (by simp)
  | cons p rest ih =>
    intro h h' fm hv heq
    obtain ⟨k, fa⟩ := p
    obtain ⟨hfa, hargs_v⟩ := hv (k, fa) (by simp)
    unfold define_field_map_loop at heq
    cases hak : assert_valid_name k with
    | error e => rw [hak] at heq; exact absurd heq (by simp)
    | ok u =>
      rw [hak] at heq
      by_cases hout : is_output_type (h.fieldAt fa).type = false
      · rw [if_pos hout] at heq; exact absurd heq (by simp)
      · rw [if_neg hout] at heq
        cases hnorm : normalize_field_args h ty k (h.fieldAt fa).args with
        | error e => rw [hnorm] at heq; exact absurd heq (by simp)
        | ok q =>
          obtain ⟨h₁, newArgs⟩ := q
          rw [hnorm] at heq
          have heq' : (match define_field_map_loop
              { h₁ with fields := h₁.fields ++
                [{ h.fieldAt fa with name := some k, args := newArgs }] } ty rest with
            | .error e => Except.error e
            | .ok (h₃, fm2) => Except.ok (h₃, (k, h₁.fields.length) :: fm2)) =
              .ok (h', fm) := heq
          cases hrec : define_field_map_loop
              { h₁ with fields := h₁.fields ++
                [{ h.fieldAt fa with name := some k, args := newArgs }] } ty rest with
          | error e => rw [hrec] at heq'; exact absurd heq' (by simp)
          | ok q2 =>
            obtain ⟨h₃, fm'⟩ := q2
            rw [hrec] at heq'
            have hpair := Except.ok.inj heq'
            have hh : h₃ = h' := congrArg Prod.fst hpair
            have hfm : (k, h₁.fields.length) :: fm' = fm := congrArg Prod.snd hpair
            subst hh
            subst hfm
            obtain ⟨hnf, hnif, hnle, hnfr⟩ := normalize_field_args_spec ty k h
              (h.fieldAt fa).args h₁ newArgs hargs_v hnorm
            have hlen₂ : ({ h₁ with fields := h₁.fields ++
                [{ h.fieldAt fa with name := some k, args := newArgs }] } : Heap).fields.length
                = h.fields.length + 1 := by simp [hnf]
            have hargs₂ : ({ h₁ with fields := h₁.fields ++
                [{ h.fieldAt fa with name := some k, args := newArgs }] } : Heap).args.length
                = h₁.args.length := rfl
            have hfat₂ : ∀ a, a < h.fields.length →
                Heap.fieldAt { h₁ with fields := h₁.fields ++
                  [{ h.fieldAt fa with name := some k, args := newArgs }] } a =
                h.fieldAt a := by
              intro a ha
              have ha1 : a < h₁.fields.length := by rw [hnf]; exact ha
              rw [fieldAt_append h₁ _ a ha1]
              simp [Heap.fieldAt, hnf]
            have hv' : ∀ p ∈ rest, p.2 < ({ h₁ with fields := h₁.fields ++
                [{ h.fieldAt fa with name := some k, args := newArgs }] } : Heap).fields.length ∧
                ∀ x ∈ (Heap.fieldAt { h₁ with fields := h₁.fields ++
                  [{ h.fieldAt fa with name := some k, args := newArgs }] } p.2).args.srcAddrs,
                  x < ({ h₁ with fields := h₁.fields ++
                    [{ h.fieldAt fa with name := some k, args := newArgs }] } : Heap).args.length := by
              intro p hp
              obtain ⟨h1p, h2p⟩ := hv p (by simp [hp])
              refine ⟨by rw [hlen₂]; exact Nat.lt_succ_of_lt h1p, ?_⟩
              rw [hfat₂ p.2 h1p, hargs₂]
              intro x hx
              exact lt_of_lt_of_le (h2p x hx) hnle
            obtain ⟨if1, if2, if3, if4, if5, if6, if7, if8⟩ := ih
              { h₁ with fields := h₁.fields ++
                [{ h.fieldAt fa with name := some k, args := newArgs }] }
              h₃ fm' hv' hrec
            rw [hlen₂] at if3 if6
            rw [hargs₂] at if4
            refine ⟨?_, ?_, ?_, ?_, ?_, ?_, ?_, ?_⟩
            · intro i hi
              rw [if1 i (by rw [hlen₂]; omega)]
              have hi1 : i < h₁.fields.length := by rw [hnf]; exact hi
              calc ({ h₁ with fields := h₁.fields ++
                    [{ h.fieldAt fa with name := some k, args := newArgs }] } : Heap).fields[i]?
                  = h₁.fields[i]? := List.getElem?_append_left hi1
                _ = h.fields[i]? := by rw [hnf]
            · intro i hi
              rw [if2 i (by rw [hargs₂]; omega)]
              exact hnfr i hi
            · omega
            · omega
            · simp [if5]
            · intro x hx
              rw [List.map_cons] at hx
              rcases List.mem_cons.mp hx with rfl | hx2
              · rw [hnf]
              · have := if6 x hx2
                omega
            · refine List.nodup_cons.mpr ⟨?_, if7⟩
              intro hmem
              have := if6 _ hmem
              rw [hnf] at this
              omega
            · intro j hj hf
              cases j with
              | zero =>
                refine ⟨newArgs, ?_⟩
                have hlt : h₁.fields.length < ({ h₁ with fields := h₁.fields ++
                    [{ h.fieldAt fa with name := some k, args := newArgs }] } : Heap).fields.length := by
                  rw [hlen₂, hnf]
                  omega
                have h1 := if1 h₁.fields.length hlt
                simp only [List.get]
                rw [h1]
                exact List.getElem?_concat_length h₁.fields
                  { h.fieldAt fa with name := some k, args := newArgs }
              | succ j =>
                have hj' : j < rest.length := by simpa using hj
                have hf' : j < fm'.length := by simpa using hf
                obtain ⟨na, hna⟩ := if8 j hj' hf'
                have hsrc : (rest.get ⟨j, hj'⟩).2 < h.fields.length :=
                  (hv (rest.get ⟨j, hj'⟩) (by simp [List.get_mem])).1
                rw [hfat₂ _ hsrc] at hna
                exact ⟨na, by simpa [List.get] using hna⟩

/-- C8: during field-map resolution each field and each argument value is
copied before its map key is assigned as its name: every caller-supplied
Field and Argument object is left unmodified (reads at all pre-existing
addresses are unchanged), each resolved entry is a freshly allocated
object -- distinct from every caller-supplied object and from every
other resolved entry -- equal to its source except for the assigned name
(and, for fields, the resolved argument list); hence one Field or
Argument object shared under two different keys yields two distinct
resolved objects, each carrying its own key as its name. -/
theorem fields_and_args_copied_on_resolution :
    (∀ (ty fn : String) (entries : List (String × Addr)) (h h' : Heap)
       (addrs : List Addr),
      (∀ p ∈ entries, p.2 < h.args.length) →
      resolve_field_args h ty fn entries = .ok (h', addrs) →
      (∀ i, i < h.args.length → h'.args[i]? = h.args[i]?)
      ∧ addrs.length = entries.length
      ∧ (∀ x ∈ addrs, h.args.length ≤ x)
      ∧ addrs.Nodup
      ∧ (∀ j (hj : j < entries.length) (ha : j < addrs.length),
          h'.args[addrs.get ⟨j, ha⟩]? =
            some { h.argAt (entries.get ⟨j, hj⟩).2 with
              name := some (entries.get ⟨j, hj⟩).1 }))
    ∧ (∀ (ty : String) (entries : List (String × Addr)) (h h' : Heap)
        (fm : List (String × Addr)),
      (∀ p ∈ entries, p.2 < h.fields.length ∧
        ∀ x ∈ (h.fieldAt p.2).args.srcAddrs, x < h.args.length) →
      define_field_map_loop h ty entries = .ok (h', fm) →
      (∀ i, i < h.fields.length → h'.fields[i]? = h.fields[i]?)
      ∧ (∀ i, i < h.args.length → h'.args[i]? = h.args[i]?)
      ∧ fm.map Prod.fst = entries.map Prod.fst
      ∧ (∀ x ∈ fm.map Prod.snd, h.fields.length ≤ x)
      ∧ (fm.map Prod.snd).Nodup
      ∧ (∀ j (hj : j < entries.length) (hf : j < fm.length),
          ∃ newArgs,
            h'.fields[(fm.get ⟨j, hf⟩).2]? =
              some { h.fieldAt (entries.get ⟨j, hj⟩).2 with
                name := some (entries.get ⟨j, hj⟩).1, args := newArgs })) := by
  constructor
  · intro ty fn entries h h' addrs hv heq
    obtain ⟨_, _, _, hfr, hlen, hge, hnd, hcorr⟩ :=
      resolve_field_args_spec ty fn entries h h' addrs hv heq
    exact ⟨hfr, hlen, hge, hnd, hcorr⟩
  · intro ty entries h h' fm hv heq
    obtain ⟨f1, f2, _, _, f5, f6, f7, f8⟩ :=
      define_field_map_loop_spec ty entries h h' fm hv heq
    exact ⟨f1, f2, f5, f6, f7, f8⟩

/-- Closed instantiation of `fields_and_args_copied_on_resolution`: one
field object (address 0, with one argument "input") reused under the two
keys "a" and "b" resolves to the two distinct fresh copies at addresses
1 and 2, and the caller's field object at address 0 is unchanged. -/
theorem fields_and_args_copied_on_resolution_witness :
    ([("a", 1), ("b", 2)].map Prod.snd).Nodup
    ∧ (⟨[⟨none, GQLType.scalar "String" none, .map [("input", 0)], none, none, some "d"⟩,
         ⟨some "a", GQLType.scalar "String" none, .resolved [1], none, none, some "d"⟩,
         ⟨some "b", GQLType.scalar "String" none, .resolved [2], none, none, some "d"⟩],
        [⟨none, GQLType.scalar "String" none, none, some "ad"⟩,
         ⟨some "input", GQLType.scalar "String" none, none, some "ad"⟩,
         ⟨some "input", GQLType.scalar "String" none, none, some "ad"⟩],
        []⟩ : Heap).fields[0]? =
      (⟨[⟨none, GQLType.scalar "String" none, .map [("input", 0)], none, none, some "d"⟩],
        [⟨none, GQLType.scalar "String" none, none, some "ad"⟩], []⟩ : Heap).fields[0]? :=
  ⟨(fields_and_args_copied_on_resolution.2 "SomeObject" [("a", 0), ("b", 0)]
      ⟨[⟨none, GQLType.scalar "String" none, .map [("input", 0)], none, none, some "d"⟩],
       [⟨none, GQLType.scalar "String" none, none, some "ad"⟩], []⟩
      ⟨[⟨none, GQLType.scalar "String" none, .map [("input", 0)], none, none, some "d"⟩,
        ⟨some "a", GQLType.scalar "String" none, .resolved [1], none, none, some "d"⟩,
        ⟨some "b", GQLType.scalar "String" none, .resolved [2], none, none, some "d"⟩],
       [⟨none, GQLType.scalar "String" none, none, some "ad"⟩,
        ⟨some "input", GQLType.scalar "String" none, none, some "ad"⟩,
        ⟨some "input", GQLType.scalar "String" none, none, some "ad"⟩],
       []⟩ [("a", 1), ("b", 2)] (by decide) rfl).2.2.2.2.1,
   (fields_and_args_copied_on_resolution.2 "SomeObject" [("a", 0), ("b", 0)]
      ⟨[⟨none, GQLType.scalar "String" none, .map [("input", 0)], none, none, some "d"⟩],
       [⟨none, GQLType.scalar "String" none, none, some "ad"⟩], []⟩
      ⟨[⟨none, GQLType.scalar "String" none, .map [("input", 0)], none, none, some "d"⟩,
        ⟨some "a", GQLType.scalar "String" none, .resolved [1], none, none, some "d"⟩,
        ⟨some "b", GQLType.scalar "String" none, .resolved [2], none, none, some "d"⟩],
       [⟨none, GQLType.scalar "String" none, none, some "ad"⟩,
        ⟨some "input", GQLType.scalar "String" none, none, some "ad"⟩,
        ⟨some "input", GQLType.scalar "String" none, none, some "ad"⟩],
       []⟩ [("a", 1), ("b", 2)] (by decide) rfl).1 0 (by decide)⟩

end GraphQL
